import Mathlib

/-!
Verification of the PDF bundle pipeline (`src/app.py`).

A shallow embedding of the document-assembly pipeline: image-mode
normalisation (`image_to_pdf_bytes`), table-of-contents generation
(`create_toc`), footer stamping (`stamp_page_numbers`), per-file intake
with error recovery, and the final bundle assembly of the main execution
block, together with theorems settling the claims of the specification.
-/

namespace PdfBinder

/-- A footer overlay composited onto a page: the text drawn by
`canvas.drawCentredString(x, y, text)` on the watermark canvas. -/
structure Overlay where
  text : String
  x : Nat
  y : Nat
  deriving DecidableEq, Repr, Inhabited

/-- An entry drawn on a TOC page by `create_toc`: the (possibly truncated)
display name, the right-aligned page label built from `current_page`, and
the vertical cursor position at which it was drawn. -/
structure TocEntry where
  name : String
  label : String
  ypos : Nat
  deriving DecidableEq, Repr, Inhabited

/-- The renderable content of a page in the pipeline: either opaque
content of an uploaded/converted PDF page, or a generated TOC page
holding its drawn entries (page 0 additionally carries the header). -/
inductive PageContent where
  | pdf (data : String)
  | toc (entries : List TocEntry)
  deriving DecidableEq, Repr, Inhabited

/-- A page as the pipeline sees it: its media-box dimensions in points,
its original content, and the overlays merged on top of it
(`page.merge_page(watermark.pages[0])` appends the watermark content
after the existing content, so overlays are layered on top). -/
structure Page where
  width : Nat
  height : Nat
  content : PageContent
  overlays : List Overlay
  deriving DecidableEq, Repr, Inhabited

/-- Width of `reportlab.lib.pagesizes.letter`, which is `(612, 792)` points. -/
def letterWidth : Nat := 612

/-- Height of the letter page size in points. -/
def letterHeight : Nat := 792

/-! ## Image normaliser (`image_to_pdf_bytes`, lines 44-64)

The mode-conversion policy of `image_to_pdf_bytes`: Pillow mode `RGBA`
and palette mode `P` are converted to `RGB`; every other mode is passed
through unchanged. -/

/-- The color-mode normalisation performed by `image_to_pdf_bytes`
(lines 49-52): mode `RGBA` is converted to `RGB`, palette mode `P` is
converted to `RGB`, and every other mode is left as it is. -/
def convertMode (mode : String) : String :=
  if mode = "RGBA" then "RGB"
  else if mode = "P" then "RGB"
  else mode

/-- Modelled from the spec (§4.1), for comparison with `convertMode`:
the set of input color modes the spec calls not directly embeddable —
"palette-indexed or alpha-channel" encodings.  The palette modes of Pillow are
`P` and `PA`; its alpha-carrying modes are `RGBA`, `LA`, `PA`, `RGBa`
and `La`. -/
def specNeedsFlatten (mode : String) : Bool :=
  mode = "P" || mode = "PA" || mode = "RGBA" || mode = "LA" ||
  mode = "RGBa" || mode = "La"

/-! ## Page stamper (`stamp_page_numbers`, lines 109-128) -/

/-- The footer text stamped on the page at offset `i` of a document that
starts at absolute page `startPage`: the f-string
`"Page " + str(start_page + i) + " of " + str(total_pages)` of line 120. -/
def footerText (startPage totalPages i : Nat) : String :=
  "Page " ++ toString (startPage + i) ++ " of " ++ toString totalPages

/-- The footer overlay built for the page at offset `i` of a document
starting at absolute page `startPage`: the watermark canvas is
letter-sized, so the text is drawn centred at `x = width / 2 = 306` and
`y = 20`. -/
def footerOverlay (startPage totalPages i : Nat) : Overlay :=
  ⟨footerText startPage totalPages i, letterWidth / 2, 20⟩

/-- Stamping a single page: the watermark page is merged onto the
original page, so the original content and dimensions are kept and the
footer overlay is appended on top. -/
def stampPage (startPage totalPages i : Nat) (p : Page) : Page :=
  { p with overlays := p.overlays ++ [footerOverlay startPage totalPages i] }

/-- The `for i, page in enumerate(pdf_reader.pages)` loop of
`stamp_page_numbers`, carrying the enumeration index `i`. -/
def stampFrom (startPage totalPages i : Nat) : List Page → List Page
  | [] => []
  | p :: ps => stampPage startPage totalPages i p :: stampFrom startPage totalPages (i + 1) ps

/-- `stamp_page_numbers(pdf_reader, start_page, total_pages)`: stamps
`"Page X of Y"` on every page, starting the enumeration at 0. -/
def stamp_page_numbers (pages : List Page) (startPage totalPages : Nat) : List Page :=
  stampFrom startPage totalPages 0 pages

/-! ## TOC generator (`create_toc`, lines 69-107) -/

/-- The display-name truncation of a TOC entry (line 88): names longer
than 60 characters are cut to their first 60 characters followed by an
ellipsis. -/
def truncName (name : String) : String :=
  if name.length > 60 then name.take 60 ++ "..." else name

/-- The right-aligned page label drawn for a TOC entry (line 93). -/
def pageLabel (currentPage : Nat) : String :=
  "Page " ++ toString currentPage

/-- The mutable state of the `create_toc` drawing loop: the vertical
cursor `y`, the running `current_page` counter, the entries drawn on the
canvas page currently open, the canvas pages already emitted by
`showPage()`, and whether the open page has any drawing on it (the
header makes page 0 start dirty; the save call of reportlab emits the
open page only when it has content). -/
structure TocState where
  y : Nat
  curPage : Nat
  cur : List TocEntry
  done : List (List TocEntry)
  dirty : Bool
  deriving DecidableEq, Repr

/-- Initial TOC state: the header is drawn at `height - 50`, the content
cursor starts at `y = height - 100 = 692`, and
`current_page = 2  # Starts after TOC`. -/
def tocInit : TocState :=
  ⟨letterHeight - 100, 2, [], [], true⟩

/-- One iteration of the `for name, pages in zip(file_names, page_counts)`
loop: draw the truncated name and the page label at the cursor, move the
cursor down 25 points, advance `current_page` by the page count, and
start a new canvas page when the cursor falls below 50. -/
def tocStep (st : TocState) (nc : String × Nat) : TocState :=
  let e : TocEntry := ⟨truncName nc.1, pageLabel st.curPage, st.y⟩
  let y := st.y - 25
  let cur := st.cur ++ [e]
  let curPage := st.curPage + nc.2
  if y < 50 then
    ⟨letterHeight - 50, curPage, [], st.done ++ [cur], false⟩
  else
    ⟨y, curPage, cur, st.done, true⟩

/-- The per-page entry lists of the saved TOC canvas: the pages closed by
`showPage()`, plus the still-open page when it has content. -/
def tocSave (st : TocState) : List (List TocEntry) :=
  st.done ++ (if st.dirty then [st.cur] else [])

/-- The TOC generator `create_toc(file_names, page_counts)`: the
generated TOC pages, each a letter-sized page carrying its drawn
entries. -/
def create_toc (names : List String) (counts : List Nat) : List Page :=
  (tocSave ((names.zip counts).foldl tocStep tocInit)).map
    (fun es => ⟨letterWidth, letterHeight, .toc es, []⟩)

/-- The entries of a generated TOC page (empty for a document page). -/
def pageEntries (p : Page) : List TocEntry :=
  match p.content with
  | .toc es => es
  | .pdf _ => []

/-- Whether a page is a generated TOC page. -/
def isTocPage (p : Page) : Bool :=
  match p.content with
  | .toc _ => true
  | .pdf _ => false

/-- All TOC entries of the generated TOC, across its pages, in drawing
order. -/
def tocEntries (names : List String) (counts : List Nat) : List TocEntry :=
  ((create_toc names counts).map pageEntries).flatten

/-! ## Per-file intake (lines 165-193)

The `for f in uploaded_files` loop classifies each file by the extension
of its lowercased name; images are converted with `image_to_pdf_bytes`
and parsed with `PdfReader`, pdfs are parsed with `PdfReader`, and any
other extension is skipped with a warning.  The outcome of the external
decode/parse is not computable inside the embedding, so an uploaded file
carries it as an oracle: `parsed = some pages` when the applicable
read/convert succeeds with those pages, `none` when it raises. -/

/-- An uploaded file: its name and the outcome of attempting to
read/convert it (decided by the external libraries). -/
structure UploadedFile where
  name : String
  parsed : Option (List Page)
  deriving DecidableEq, Repr, Inhabited

/-- A successfully processed file, as stored in `processed_files`:
a record of the file name, the parsed reader, and the count
`count = len(reader.pages)`. -/
structure ProcessedFile where
  name : String
  pages : List Page
  deriving DecidableEq, Repr, Inhabited

/-- The stored `count` of a processed file: `len(reader.pages)`. -/
def ProcessedFile.count (pf : ProcessedFile) : Nat :=
  pf.pages.length

/-- A user-visible message emitted by the pipeline
(`st.error` / `st.warning` / `st.success`). -/
inductive Msg where
  | errorImage (name : String)
  | errorPdf (name : String)
  | warnUnsupported (name : String)
  | genericError
  | success
  deriving DecidableEq, Repr

/-- The file name a message names, when it names one. -/
def Msg.named : Msg → Option String
  | .errorImage n => some n
  | .errorPdf n => some n
  | .warnUnsupported n => some n
  | .genericError => none
  | .success => none

/-- Lowercasing of a file name, character by character, as the lower
call on line 166 does for ASCII names. -/
def lowerName (s : String) : String :=
  ⟨s.data.map Char.toLower⟩

/-- Splitting a character list at every dot, as the split on line 166
does: the result always has one more part than there are dots. -/
def splitDots : List Char → List (List Char)
  | [] => [[]]
  | c :: cs =>
    if c = '.' then [] :: splitDots cs
    else
      match splitDots cs with
      | [] => [[c]]
      | h :: t => (c :: h) :: t

/-- The extension used to classify a file (line 166): the last
dot-separated component of the lowercased file name. -/
def fileExtension (name : String) : String :=
  ⟨(splitDots (lowerName name).data).getLastD []⟩

/-- Intake of one uploaded file: classify by extension, attempt the
applicable read/convert, and either produce a `ProcessedFile` or the
per-file message with which the file is skipped. -/
def intakeFile (f : UploadedFile) : Except Msg ProcessedFile :=
  let ext := fileExtension f.name
  if ext = "png" ∨ ext = "jpg" ∨ ext = "jpeg" then
    match f.parsed with
    | some pages => .ok ⟨f.name, pages⟩
    | none => .error (.errorImage f.name)
  else if ext = "pdf" then
    match f.parsed with
    | some pages => .ok ⟨f.name, pages⟩
    | none => .error (.errorPdf f.name)
  else
    .error (.warnUnsupported f.name)

/-- The intake loop over `uploaded_files`: every failure is recovered
with `continue`, accumulating the processed files and the per-file
messages in upload order. -/
def processedFiles : List UploadedFile → List ProcessedFile × List Msg
  | [] => ([], [])
  | f :: rest =>
    let r := processedFiles rest
    match intakeFile f with
    | .ok pf => (pf :: r.1, r.2)
    | .error m => (r.1, m :: r.2)

/-! ## Page accounting and bundle assembly (main block, lines 196-243) -/

/-- The grand total `total_pages`: the sum of the processed page counts,
plus 1 for the TOC itself when `use_toc` is set (lines 199-204). -/
def total_pages (use_toc : Bool) (counts : List Nat) : Nat :=
  counts.sum + (if use_toc then 1 else 0)

/-- The start pages handed to the stamper: the running
`current_page_counter`, seeded at `seed`, recorded per document before
being advanced by the page count of the document. -/
def stampStarts (seed : Nat) : List Nat → List Nat
  | [] => []
  | c :: cs => seed :: stampStarts (seed + c) cs

/-- The merging & stamping loop (lines 219-230): for each processed
document, append its (optionally stamped) pages to the final writer and
advance `current_page_counter` by its page count. -/
def mergeLoop (use_numbers : Bool) (totalPages : Nat) :
    List ProcessedFile → Nat → List Page
  | [], _ => []
  | pf :: rest, counter =>
    (if use_numbers then stamp_page_numbers pf.pages counter totalPages else pf.pages)
      ++ mergeLoop use_numbers totalPages rest (counter + pf.count)

/-- The pages written to `final_writer`: when `use_toc` is set, the first
page of the generated TOC (`PdfReader(toc_packet).pages[0]`, line 212),
followed by the (optionally stamped) pages of each processed document,
with the
counter seeded at `2 if use_toc else 1` (line 215). -/
def finalBundle (use_toc use_numbers : Bool) (procs : List ProcessedFile) : List Page :=
  let counts := procs.map ProcessedFile.count
  let total := total_pages use_toc counts
  (if use_toc then (create_toc (procs.map ProcessedFile.name) counts).take 1 else [])
    ++ mergeLoop use_numbers total procs (if use_toc then 2 else 1)

/-! ## The guarded main block (lines 151-246)

Everything from the TOC phase to `final_writer.write(output)` runs inside
one `try`; the `st.download_button` giving the user the output runs only
after the write succeeds, and the `except` branch surfaces one generic
`st.error`.  The external libraries may raise anywhere in that block; the
possible raise points are embedded as an injected fault naming the step
at which the first exception occurs. -/

/-- A step of the guarded block at which an external exception can be
raised: page counting, TOC generation, stamping of document `i`, or the
final write. -/
inductive Step where
  | count
  | toc
  | stampDoc (i : Nat)
  | write
  deriving DecidableEq, Repr

/-- Whether an injected fault at `s` is reached by a run with the given
options over `procs`: the TOC step runs only when `use_toc` is set, and
stamping of document `i` only when `use_numbers` is set and `i` indexes a
processed document. -/
def stepRuns (s : Step) (use_toc use_numbers : Bool) (procs : List ProcessedFile) : Prop :=
  match s with
  | .count => True
  | .toc => use_toc = true
  | .stampDoc i => use_numbers = true ∧ i < procs.length
  | .write => True

/-- The merging loop inside the `try`, with a possible raise at each
stamping step; `idx` is the enumeration index of the `for idx, ...` loop. -/
def mergeLoopExc (fault : Option Step) (use_numbers : Bool) (totalPages : Nat) :
    List ProcessedFile → Nat → Nat → Except Unit (List Page)
  | [], _, _ => .ok []
  | pf :: rest, counter, idx =>
    if use_numbers ∧ fault = some (.stampDoc idx) then .error ()
    else do
      let tail ← mergeLoopExc fault use_numbers totalPages rest (counter + pf.count) (idx + 1)
      .ok ((if use_numbers then stamp_page_numbers pf.pages counter totalPages else pf.pages)
        ++ tail)

/-- The guarded block from counting to the final write, returning the
written bundle, or `error` when the injected fault is reached. -/
def runBundle (fault : Option Step) (use_toc use_numbers : Bool)
    (procs : List ProcessedFile) : Except Unit (List Page) := do
  if fault = some .count then .error ()
  let counts := procs.map ProcessedFile.count
  let total := total_pages use_toc counts
  let tocPart ←
    if use_toc then
      if fault = some .toc then .error ()
      else .ok ((create_toc (procs.map ProcessedFile.name) counts).take 1)
    else .ok []
  let body ← mergeLoopExc fault use_numbers total procs (if use_toc then 2 else 1) 0
  if fault = some .write then .error ()
  .ok (tocPart ++ body)

/-- What the user sees after the `try`/`except`: on success, the download
button with the written bundle and the success status; on an exception,
no output and the single generic `st.error`. -/
def mainResult (fault : Option Step) (use_toc use_numbers : Bool)
    (procs : List ProcessedFile) : Option (List Page) × List Msg :=
  match runBundle fault use_toc use_numbers procs with
  | .ok bundle => (some bundle, [.success])
  | .error _ => (none, [.genericError])

/-- The per-file message a file produces at intake, when it fails. -/
def intakeMsg (g : UploadedFile) : Option Msg :=
  match intakeFile g with
  | .error m => some m
  | .ok _ => none

/-- The invariant of the TOC drawing loop used for page accounting: a
state always has an emitted page or an open dirty page, and a clean open
page is empty. -/
def TocInv (st : TocState) : Prop :=
  (st.done ≠ [] ∨ st.dirty = true) ∧ (st.dirty = false → st.cur = [])

/-- The name-and-label view of the entries a TOC state holds, in drawing
order. -/
def stateEntryProjs (st : TocState) : List (String × String) :=
  (st.done.flatten ++ st.cur).map (fun e => (e.name, e.label))

/-- The name-and-label pairs the drawing loop produces from a given
`current_page` seed, independent of the vertical cursor. -/
def entryProjs : Nat → List (String × Nat) → List (String × String)
  | _, [] => []
  | cp, nc :: rest => (truncName nc.1, pageLabel cp) :: entryProjs (cp + nc.2) rest

/-- The ordered file names of the processed list (line 197). -/
def docNames (procs : List ProcessedFile) : List String :=
  procs.map ProcessedFile.name

/-- The ordered page counts of the processed list (line 198). -/
def docCounts (procs : List ProcessedFile) : List Nat :=
  procs.map ProcessedFile.count

/-- The ordered start pages of the processed documents: the value of
`current_page_counter` when each document is reached, seeded at 2 when
the TOC is enabled and at 1 otherwise (line 215). -/
def startPages (use_toc : Bool) (procs : List ProcessedFile) : List Nat :=
  stampStarts (if use_toc then 2 else 1) (docCounts procs)

/-! ## Concrete inputs used by the witnesses and counterexamples -/

/-- A sample letter-sized document page with opaque content. -/
def demoPage : Page := ⟨612, 792, .pdf "content", []⟩

/-- The processed-document list of the worked scenario in spec section 8:
a three-page `A.pdf` followed by a one-page `B.jpg`. -/
def demoProcs : List ProcessedFile :=
  [⟨"A.pdf", [demoPage, demoPage, demoPage]⟩, ⟨"B.jpg", [demoPage]⟩]

/-- Twenty-seven one-page documents: enough TOC entries to overflow the
first TOC page, since only 26 rows fit between the cursor seed 692 and
the bottom margin 50 at 25 points per row. -/
def ceProcs : List ProcessedFile :=
  List.replicate 27 ⟨"d", [demoPage]⟩

/-- Uploaded files for the intake witnesses: a parseable pdf, a file with
an unsupported extension, and a png whose decode fails. -/
def demoFiles : List UploadedFile :=
  [⟨"A.pdf", some [demoPage, demoPage, demoPage]⟩, ⟨"b.txt", some []⟩, ⟨"c.png", none⟩]

/-- An upload list on which every file fails intake. -/
def failFiles : List UploadedFile :=
  [⟨"b.txt", some []⟩, ⟨"c.png", none⟩]

/-! ## Helper lemmas -/

theorem stampFrom_length (s t : Nat) :
    ∀ (ps : List Page) (i : Nat), (stampFrom s t i ps).length = ps.length := by
  intro ps
  induction ps with
  | nil => intro i; rfl
  | cons p ps ih => intro i; simp [stampFrom, ih]

theorem stamp_length (ps : List Page) (s t : Nat) :
    (stamp_page_numbers ps s t).length = ps.length :=
  stampFrom_length s t ps 0

theorem stampFrom_getD (s t : Nat) :
    ∀ (ps : List Page) (i k : Nat), k < ps.length →
      (stampFrom s t i ps).getD k default = stampPage s t (i + k) (ps.getD k default) := by
  intro ps
  induction ps with
  | nil => intro i k hk; simp at hk
  | cons p ps ih =>
    intro i k hk
    cases k with
    | zero => simp [stampFrom]
    | succ k =>
      simp only [stampFrom, List.getD_cons_succ]
      rw [ih (i + 1) k (by simpa using hk)]
      ring_nf

theorem stamp_getD (ps : List Page) (s t k : Nat) (hk : k < ps.length) :
    (stamp_page_numbers ps s t).getD k default = stampPage s t k (ps.getD k default) := by
  have h := stampFrom_getD s t ps 0 k hk
  simpa using h

theorem stampFrom_map_content (s t : Nat) :
    ∀ (ps : List Page) (i : Nat),
      (stampFrom s t i ps).map Page.content = ps.map Page.content := by
  intro ps
  induction ps with
  | nil => intro i; rfl
  | cons p ps ih => intro i; simp [stampFrom, stampPage, ih]

theorem stamp_map_content (ps : List Page) (s t : Nat) :
    (stamp_page_numbers ps s t).map Page.content = ps.map Page.content :=
  stampFrom_map_content s t ps 0

theorem mergeLoop_length (n : Bool) (total : Nat) :
    ∀ (procs : List ProcessedFile) (c : Nat),
      (mergeLoop n total procs c).length = (procs.map ProcessedFile.count).sum := by
  intro procs
  induction procs with
  | nil => intro c; rfl
  | cons pf rest ih =>
    intro c
    simp only [mergeLoop, List.length_append, ih, List.map_cons, List.sum_cons]
    cases n <;> simp [stamp_length, ProcessedFile.count]

theorem mergeLoop_eq_flatten (n : Bool) (total : Nat) :
    ∀ (procs : List ProcessedFile) (c : Nat),
      mergeLoop n total procs c
        = ((procs.zip (stampStarts c (procs.map ProcessedFile.count))).map
            (fun x => if n then stamp_page_numbers x.1.pages x.2 total else x.1.pages)).flatten := by
  intro procs
  induction procs with
  | nil => intro c; rfl
  | cons pf rest ih =>
    intro c
    simp only [mergeLoop, List.map_cons, stampStarts, List.zip_cons_cons, List.flatten_cons]
    rw [ih (c + pf.count)]

theorem stampStarts_length (seed : Nat) :
    ∀ (cs : List Nat), (stampStarts seed cs).length = cs.length := by
  intro cs
  induction cs generalizing seed with
  | nil => rfl
  | cons c cs ih => simp [stampStarts, ih]

theorem stampStarts_head (seed c : Nat) (cs : List Nat) :
    (stampStarts seed (c :: cs)).getD 0 0 = seed := rfl

theorem stampStarts_chain (cs : List Nat) :
    ∀ (seed i : Nat), i + 1 < cs.length →
      (stampStarts seed cs).getD (i + 1) 0
        = (stampStarts seed cs).getD i 0 + cs.getD i 0 := by
  induction cs with
  | nil => intro seed i h; simp at h
  | cons c cs ih =>
    intro seed i h
    cases i with
    | zero =>
      cases cs with
      | nil => simp at h
      | cons d ds => simp [stampStarts]
    | succ i =>
      simp only [stampStarts, List.getD_cons_succ]
      exact ih (seed + c) i (by simpa using h)

theorem tocInv_init : TocInv tocInit := by
  constructor
  · exact Or.inr rfl
  · intro h; simp [tocInit] at h

theorem tocInv_step (st : TocState) (nc : String × Nat) :
    TocInv (tocStep st nc) := by
  unfold tocStep
  by_cases hy : st.y - 25 < 50
  · simp only [hy, if_pos]
    exact ⟨Or.inl (by simp), fun _ => rfl⟩
  · simp only [hy, if_neg, not_false_iff]
    exact ⟨Or.inr rfl, fun hc => by simp at hc⟩

theorem tocInv_foldl (l : List (String × Nat)) :
    ∀ (st : TocState), TocInv st → TocInv (l.foldl tocStep st) := by
  induction l with
  | nil => intro st h; exact h
  | cons nc l ih => intro st h; exact ih _ (tocInv_step st nc)

theorem tocSave_ne_nil (st : TocState) (h : TocInv st) : tocSave st ≠ [] := by
  unfold tocSave
  rcases h with ⟨h1, _⟩
  cases hd : st.dirty with
  | true => simp
  | false =>
    rcases h1 with h1 | h1
    · simpa [hd] using h1
    · rw [hd] at h1; cases h1

theorem create_toc_ne_nil (names : List String) (counts : List Nat) :
    create_toc names counts ≠ [] := by
  unfold create_toc
  have h := tocSave_ne_nil _ (tocInv_foldl (names.zip counts) tocInit tocInv_init)
  simpa using h

theorem create_toc_take_one_length (names : List String) (counts : List Nat) :
    ((create_toc names counts).take 1).length = 1 := by
  have h := create_toc_ne_nil names counts
  cases hc : create_toc names counts with
  | nil => exact absurd hc h
  | cons p ps => simp

theorem stateEntryProjs_step (st : TocState) (nc : String × Nat) :
    stateEntryProjs (tocStep st nc)
      = stateEntryProjs st ++ [(truncName nc.1, pageLabel st.curPage)] := by
  unfold tocStep stateEntryProjs
  by_cases hy : st.y - 25 < 50
  · simp [hy]
  · simp [hy]

theorem tocStep_curPage (st : TocState) (nc : String × Nat) :
    (tocStep st nc).curPage = st.curPage + nc.2 := by
  unfold tocStep
  by_cases hy : st.y - 25 < 50
  · simp [hy]
  · simp [hy]

theorem stateEntryProjs_foldl (l : List (String × Nat)) :
    ∀ (st : TocState),
      stateEntryProjs (l.foldl tocStep st)
        = stateEntryProjs st ++ entryProjs st.curPage l := by
  induction l with
  | nil => intro st; simp [entryProjs]
  | cons nc l ih =>
    intro st
    simp only [List.foldl_cons, entryProjs]
    rw [ih (tocStep st nc), stateEntryProjs_step, tocStep_curPage]
    simp

theorem tocSave_flatten (st : TocState) (h : TocInv st) :
    (tocSave st).flatten = st.done.flatten ++ st.cur := by
  unfold tocSave
  cases hd : st.dirty with
  | true => simp
  | false => simp [h.2 hd]

theorem tocEntries_projs (names : List String) (counts : List Nat) :
    (tocEntries names counts).map (fun e => (e.name, e.label))
      = entryProjs 2 (names.zip counts) := by
  unfold tocEntries create_toc
  have hinv := tocInv_foldl (names.zip counts) tocInit tocInv_init
  have hmap : ∀ (ls : List (List TocEntry)),
      ((ls.map (fun es => (⟨letterWidth, letterHeight, .toc es, []⟩ : Page))).map
        pageEntries) = ls := by
    intro ls
    induction ls with
    | nil => rfl
    | cons e es ih => simp only [List.map_cons, pageEntries, ih]
  rw [hmap, tocSave_flatten _ hinv]
  have h := stateEntryProjs_foldl (names.zip counts) tocInit
  unfold stateEntryProjs at h
  simpa [tocInit] using h

theorem entryProjs_snd :
    ∀ (l : List (String × Nat)) (cp : Nat),
      (entryProjs cp l).map Prod.snd = (stampStarts cp (l.map Prod.snd)).map pageLabel := by
  intro l
  induction l with
  | nil => intro cp; rfl
  | cons nc l ih => intro cp; simp [entryProjs, stampStarts, ih]

theorem entryProjs_fst :
    ∀ (l : List (String × Nat)) (cp : Nat),
      (entryProjs cp l).map Prod.fst = l.map (fun x => truncName x.1) := by
  intro l
  induction l with
  | nil => intro cp; rfl
  | cons nc l ih => intro cp; simp [entryProjs, ih]

theorem tocEntries_labels (names : List String) (counts : List Nat)
    (h : names.length = counts.length) :
    (tocEntries names counts).map TocEntry.label = (stampStarts 2 counts).map pageLabel := by
  have h1 : (tocEntries names counts).map TocEntry.label
      = ((tocEntries names counts).map (fun e => (e.name, e.label))).map Prod.snd := by
    simp
  rw [h1, tocEntries_projs, entryProjs_snd]
  rw [List.map_snd_zip names counts (le_of_eq h.symm)]

theorem tocEntries_names (names : List String) (counts : List Nat)
    (h : names.length = counts.length) :
    (tocEntries names counts).map TocEntry.name = names.map truncName := by
  have h1 : (tocEntries names counts).map TocEntry.name
      = ((tocEntries names counts).map (fun e => (e.name, e.label))).map Prod.fst := by
    simp
  rw [h1, tocEntries_projs, entryProjs_fst]
  have h2 : (names.zip counts).map (fun x => truncName x.1)
      = ((names.zip counts).map Prod.fst).map truncName := by
    simp [List.map_map]
  rw [h2, List.map_fst_zip names counts (le_of_eq h)]

theorem mergeLoopExc_ok (fault : Option Step) (n : Bool) (total : Nat)
    (hf : ∀ i, fault ≠ some (.stampDoc i)) :
    ∀ (procs : List ProcessedFile) (c idx : Nat),
      mergeLoopExc fault n total procs c idx = .ok (mergeLoop n total procs c) := by
  intro procs
  induction procs with
  | nil => intro c idx; rfl
  | cons pf rest ih =>
    intro c idx
    have hcond : ¬ (n = true ∧ fault = some (.stampDoc idx)) := by
      rintro ⟨_, h2⟩
      exact hf idx h2
    simp only [mergeLoopExc, mergeLoop]
    rw [if_neg hcond, ih (c + pf.count) (idx + 1)]
    rfl

theorem mergeLoopExc_stamp_error (total i : Nat) :
    ∀ (procs : List ProcessedFile) (c idx : Nat), idx ≤ i → i < idx + procs.length →
      mergeLoopExc (some (.stampDoc i)) true total procs c idx = .error () := by
  intro procs
  induction procs with
  | nil =>
    intro c idx h1 h2
    simp only [List.length_nil, Nat.add_zero] at h2
    omega
  | cons pf rest ih =>
    intro c idx h1 h2
    by_cases hi : idx = i
    · subst hi
      simp [mergeLoopExc]
    · have hcond : ¬ (True ∧ (some (Step.stampDoc i) : Option Step) = some (.stampDoc idx)) := by
        rintro ⟨_, h⟩
        exact hi (by injection h with h; injection h with h; omega)
      simp only [mergeLoopExc]
      rw [if_neg (by simpa using hcond)]
      rw [ih (c + pf.count) (idx + 1) (by omega) (by simp at h2 ⊢; omega)]
      rfl

theorem runBundle_none (use_toc use_numbers : Bool) (procs : List ProcessedFile) :
    runBundle none use_toc use_numbers procs = .ok (finalBundle use_toc use_numbers procs) := by
  have hml : ∀ c, mergeLoopExc none use_numbers
      (total_pages use_toc (procs.map ProcessedFile.count)) procs c 0
      = .ok (mergeLoop use_numbers (total_pages use_toc (procs.map ProcessedFile.count)) procs c) :=
    fun c => mergeLoopExc_ok none use_numbers _ (fun i => by simp) procs c 0
  cases use_toc <;> simp only [runBundle, finalBundle, hml] <;> rfl

theorem runBundle_fault (s : Step) (use_toc use_numbers : Bool)
    (procs : List ProcessedFile) (hs : stepRuns s use_toc use_numbers procs) :
    runBundle (some s) use_toc use_numbers procs = .error () := by
  cases s with
  | count => rfl
  | toc =>
    have ht : use_toc = true := hs
    subst ht
    rfl
  | stampDoc i =>
    obtain ⟨hn, hi⟩ := hs
    subst hn
    cases use_toc with
    | false =>
      have hml : mergeLoopExc (some (.stampDoc i)) true
          (total_pages false (procs.map ProcessedFile.count)) procs 1 0 = .error () :=
        mergeLoopExc_stamp_error _ i procs 1 0 (Nat.zero_le i) (by simpa using hi)
      simp [runBundle, hml]
      rfl
    | true =>
      have hml : mergeLoopExc (some (.stampDoc i)) true
          (total_pages true (procs.map ProcessedFile.count)) procs 2 0 = .error () :=
        mergeLoopExc_stamp_error _ i procs 2 0 (Nat.zero_le i) (by simpa using hi)
      simp [runBundle, hml]
      rfl
  | write =>
    have hml : ∀ c, mergeLoopExc (some .write) use_numbers
        (total_pages use_toc (procs.map ProcessedFile.count)) procs c 0
        = .ok (mergeLoop use_numbers (total_pages use_toc (procs.map ProcessedFile.count)) procs c) :=
      fun c => mergeLoopExc_ok (some .write) use_numbers _ (fun i => by simp) procs c 0
    cases use_toc <;> simp only [runBundle, hml] <;> rfl

theorem processedFiles_fst (files : List UploadedFile) :
    (processedFiles files).1 = files.filterMap (fun g => (intakeFile g).toOption) := by
  induction files with
  | nil => rfl
  | cons f rest ih =>
    simp only [processedFiles, List.filterMap_cons]
    cases h : intakeFile f <;> simp [h, ih, Except.toOption]

theorem processedFiles_snd (files : List UploadedFile) :
    (processedFiles files).2 = files.filterMap intakeMsg := by
  induction files with
  | nil => rfl
  | cons f rest ih =>
    simp only [processedFiles, List.filterMap_cons, intakeMsg]
    cases h : intakeFile f <;> simp [h, ih]

theorem intakeFile_error_named (f : UploadedFile) (m : Msg)
    (h : intakeFile f = .error m) : m.named = some f.name := by
  unfold intakeFile at h
  by_cases h1 : fileExtension f.name = "png" ∨ fileExtension f.name = "jpg" ∨
      fileExtension f.name = "jpeg"
  · rw [if_pos h1] at h
    cases hp : f.parsed with
    | some pages => rw [hp] at h; cases h
    | none =>
      rw [hp] at h
      cases h
      rfl
  · rw [if_neg h1] at h
    by_cases h2 : fileExtension f.name = "pdf"
    · rw [if_pos h2] at h
      cases hp : f.parsed with
      | some pages => rw [hp] at h; cases h
      | none =>
        rw [hp] at h
        cases h
        rfl
    · rw [if_neg h2] at h
      cases h
      rfl

theorem stampFrom_mem_content (s t : Nat) :
    ∀ (ps : List Page) (i : Nat) (p : Page), p ∈ stampFrom s t i ps →
      ∃ q ∈ ps, p.content = q.content := by
  intro ps
  induction ps with
  | nil => intro i p hp; simp [stampFrom] at hp
  | cons q qs ih =>
    intro i p hp
    rcases List.mem_cons.mp hp with h | h
    · exact ⟨q, List.mem_cons_self q qs, by rw [h]; rfl⟩
    · obtain ⟨r, hr, hc⟩ := ih (i + 1) p h
      exact ⟨r, List.mem_cons_of_mem q hr, hc⟩

theorem mergeLoop_content_mem (n : Bool) (total : Nat) :
    ∀ (procs : List ProcessedFile) (c : Nat) (p : Page), p ∈ mergeLoop n total procs c →
      ∃ pf ∈ procs, ∃ q ∈ pf.pages, p.content = q.content := by
  intro procs
  induction procs with
  | nil => intro c p hp; simp [mergeLoop] at hp
  | cons pf rest ih =>
    intro c p hp
    rcases List.mem_append.mp hp with h | h
    · cases hn : n with
      | true =>
        rw [hn] at h
        simp only [if_pos] at h
        obtain ⟨q, hq, hc⟩ := stampFrom_mem_content c total pf.pages 0 p h
        exact ⟨pf, List.mem_cons_self pf rest, q, hq, hc⟩
      | false =>
        rw [hn] at h
        simp only [Bool.false_eq_true, if_false] at h
        exact ⟨pf, List.mem_cons_self pf rest, p, h, rfl⟩
    · obtain ⟨pg, hpg, q, hq, hc⟩ := ih (c + pf.count) p h
      exact ⟨pg, List.mem_cons_of_mem pf hpg, q, hq, hc⟩

theorem create_toc_mem_isTocPage (names : List String) (counts : List Nat)
    (p : Page) (hp : p ∈ create_toc names counts) : isTocPage p = true := by
  unfold create_toc at hp
  obtain ⟨es, _, he⟩ := List.mem_map.mp hp
  rw [← he]
  rfl

theorem isTocPage_congr (p q : Page) (h : p.content = q.content) :
    isTocPage p = isTocPage q := by
  unfold isTocPage
  rw [h]

/-! ## Claims -/

/-- C1: for every non-empty list of successfully processed documents, the
final bundle page count equals `TotalPages`, and `TotalPages` equals the
sum of the processed page counts plus 1 if TOC generation is enabled,
else plus 0. -/
theorem C1_bundle_length_eq_total_pages (use_toc use_numbers : Bool)
    (procs : List ProcessedFile) (_hne : procs ≠ []) :
    (finalBundle use_toc use_numbers procs).length
      = total_pages use_toc (procs.map ProcessedFile.count) ∧
    total_pages use_toc (procs.map ProcessedFile.count)
      = (procs.map ProcessedFile.count).sum + (if use_toc then 1 else 0) := by
  refine ⟨?_, rfl⟩
  unfold finalBundle
  rw [List.length_append, mergeLoop_length]
  cases use_toc with
  | false => simp [total_pages]
  | true =>
    rw [if_pos rfl, create_toc_take_one_length]
    simp [total_pages, Nat.add_comm]

/-- Witness for C1 at the scenario of spec section 8: a three-page and a
one-page document with TOC and numbering on give a five-page bundle. -/
theorem C1_bundle_length_eq_total_pages_witness :
    demoProcs ≠ [] ∧
    ((finalBundle true true demoProcs).length
        = total_pages true (demoProcs.map ProcessedFile.count) ∧
      total_pages true (demoProcs.map ProcessedFile.count)
        = (demoProcs.map ProcessedFile.count).sum + (if true then 1 else 0)) :=
  ⟨by decide, C1_bundle_length_eq_total_pages true true demoProcs (by decide)⟩

/-- C2: the start pages form the chain with increment equal to the page
counts, seeded at 2 when the TOC is enabled and at 1 otherwise; they are
computed by a single forward pass of the running counter, and both the
page numbers drawn in the TOC and the counter handed to the stamper
follow this chain. -/
theorem C2_start_page_chain (use_toc use_numbers : Bool)
    (procs : List ProcessedFile) (i : Nat)
    (hi : i + 1 < (docCounts procs).length) :
    (startPages use_toc procs).length = (docCounts procs).length ∧
    (startPages use_toc procs).getD 0 0 = (if use_toc then 2 else 1) ∧
    (startPages use_toc procs).getD (i + 1) 0
      = (startPages use_toc procs).getD i 0 + (docCounts procs).getD i 0 ∧
    mergeLoop use_numbers (total_pages use_toc (docCounts procs)) procs
        (if use_toc then 2 else 1)
      = ((procs.zip (startPages use_toc procs)).map
          (fun x => if use_numbers then
              stamp_page_numbers x.1.pages x.2 (total_pages use_toc (docCounts procs))
            else x.1.pages)).flatten ∧
    (tocEntries (docNames procs) (docCounts procs)).map TocEntry.label
      = (stampStarts 2 (docCounts procs)).map pageLabel := by
  refine ⟨stampStarts_length _ _, ?_, stampStarts_chain _ _ i hi, ?_, ?_⟩
  · unfold startPages
    cases hc : docCounts procs with
    | nil => rw [hc] at hi; simp at hi
    | cons c cs => exact stampStarts_head _ c cs
  · exact mergeLoop_eq_flatten use_numbers _ procs _
  · exact tocEntries_labels _ _ (by simp [docNames, docCounts])

/-- Witness for C2 at the worked scenario: start pages `[2, 5]` for page
counts `[3, 1]` with the TOC enabled. -/
theorem C2_start_page_chain_witness :
    0 + 1 < (docCounts demoProcs).length ∧
    ((startPages true demoProcs).length = (docCounts demoProcs).length ∧
      (startPages true demoProcs).getD 0 0 = (if true then 2 else 1) ∧
      (startPages true demoProcs).getD (0 + 1) 0
        = (startPages true demoProcs).getD 0 0 + (docCounts demoProcs).getD 0 0 ∧
      mergeLoop true (total_pages true (docCounts demoProcs)) demoProcs
          (if true then 2 else 1)
        = ((demoProcs.zip (startPages true demoProcs)).map
            (fun x => if true then
                stamp_page_numbers x.1.pages x.2 (total_pages true (docCounts demoProcs))
              else x.1.pages)).flatten ∧
      (tocEntries (docNames demoProcs) (docCounts demoProcs)).map TocEntry.label
        = (stampStarts 2 (docCounts demoProcs)).map pageLabel) :=
  ⟨by decide, C2_start_page_chain true true demoProcs 0 (by decide)⟩

/-- C5: documents are processed in upload order and that order is
preserved end-to-end: the processed list is the successful subset of the
uploads in upload order, the TOC entries list the processed names in that
order, the bundle is the TOC part followed by the per-document page
blocks zipped with their start pages in that order, and stamping keeps
the content sequence of every block. -/
theorem C5_order_preserved (files : List UploadedFile) (use_toc use_numbers : Bool) :
    (processedFiles files).1 = files.filterMap (fun g => (intakeFile g).toOption) ∧
    (tocEntries (docNames (processedFiles files).1)
        (docCounts (processedFiles files).1)).map TocEntry.name
      = (docNames (processedFiles files).1).map truncName ∧
    finalBundle use_toc use_numbers (processedFiles files).1
      = (if use_toc then
          (create_toc (docNames (processedFiles files).1)
            (docCounts (processedFiles files).1)).take 1
        else [])
        ++ (((processedFiles files).1.zip
              (startPages use_toc (processedFiles files).1)).map
            (fun x => if use_numbers then
                stamp_page_numbers x.1.pages x.2
                  (total_pages use_toc (docCounts (processedFiles files).1))
              else x.1.pages)).flatten ∧
    (((processedFiles files).1.zip (startPages use_toc (processedFiles files).1)).map
        (fun x => (stamp_page_numbers x.1.pages x.2
          (total_pages use_toc (docCounts (processedFiles files).1))).map Page.content))
      = ((processedFiles files).1.zip (startPages use_toc (processedFiles files).1)).map
          (fun x => x.1.pages.map Page.content) := by
  refine ⟨processedFiles_fst files, tocEntries_names _ _ (by simp [docNames, docCounts]),
    ?_, ?_⟩
  · show (if use_toc then
        (create_toc ((processedFiles files).1.map ProcessedFile.name)
          ((processedFiles files).1.map ProcessedFile.count)).take 1
      else [])
        ++ mergeLoop use_numbers
            (total_pages use_toc ((processedFiles files).1.map ProcessedFile.count))
            (processedFiles files).1 (if use_toc then 2 else 1)
      = _
    rw [mergeLoop_eq_flatten]
    rfl
  · have hfun : (fun x : ProcessedFile × Nat =>
        (stamp_page_numbers x.1.pages x.2
          (total_pages use_toc (docCounts (processedFiles files).1))).map Page.content)
        = fun x : ProcessedFile × Nat => x.1.pages.map Page.content :=
      funext fun x => stamp_map_content x.1.pages x.2 _
    rw [hfun]

/-- C6: a file that fails intake is excluded from the processed list and
yields a user-visible message naming it, while every other file is still
processed; the processed list and the message list are exactly the
successful and failing subsets of the uploads, so no per-file failure
aborts the run. -/
theorem C6_intake_recovery (files : List UploadedFile) (f : UploadedFile) (m : Msg)
    (hf : f ∈ files) (herr : intakeFile f = .error m) :
    (processedFiles files).1 = files.filterMap (fun g => (intakeFile g).toOption) ∧
    (processedFiles files).2 = files.filterMap intakeMsg ∧
    m ∈ (processedFiles files).2 ∧
    m.named = some f.name := by
  refine ⟨processedFiles_fst files, processedFiles_snd files, ?_,
    intakeFile_error_named f m herr⟩
  rw [processedFiles_snd]
  exact List.mem_filterMap.mpr ⟨f, hf, by simp [intakeMsg, herr]⟩

/-- Witness for C6: the unsupported `b.txt` upload is skipped with a
warning naming it while the other files are processed. -/
theorem C6_intake_recovery_witness :
    (⟨"b.txt", some []⟩ : UploadedFile) ∈ demoFiles ∧
    intakeFile ⟨"b.txt", some []⟩ = .error (.warnUnsupported "b.txt") ∧
    ((processedFiles demoFiles).1
        = demoFiles.filterMap (fun g => (intakeFile g).toOption) ∧
      (processedFiles demoFiles).2 = demoFiles.filterMap intakeMsg ∧
      Msg.warnUnsupported "b.txt" ∈ (processedFiles demoFiles).2 ∧
      (Msg.warnUnsupported "b.txt").named = some "b.txt") :=
  ⟨by decide, by rfl,
    C6_intake_recovery demoFiles ⟨"b.txt", some []⟩ (.warnUnsupported "b.txt")
      (by decide) (by rfl)⟩

/-- C7: a failure raised at any step of counting, TOC generation,
stamping or assembly aborts the whole run: the guarded block returns an
error, the user sees the single generic error message, and no output is
produced. -/
theorem C7_pipeline_failure_aborts (s : Step) (use_toc use_numbers : Bool)
    (procs : List ProcessedFile) (hs : stepRuns s use_toc use_numbers procs) :
    runBundle (some s) use_toc use_numbers procs = .error () ∧
    mainResult (some s) use_toc use_numbers procs = (none, [.genericError]) := by
  have h := runBundle_fault s use_toc use_numbers procs hs
  refine ⟨h, ?_⟩
  unfold mainResult
  rw [h]

/-- Witness for C7: a failure in TOC generation with both options on
surfaces the generic error and produces no output. -/
theorem C7_pipeline_failure_aborts_witness :
    stepRuns .toc true true demoProcs ∧
    (runBundle (some .toc) true true demoProcs = .error () ∧
      mainResult (some .toc) true true demoProcs = (none, [.genericError])) :=
  ⟨rfl, C7_pipeline_failure_aborts .toc true true demoProcs rfl⟩

/-- C10: when every uploaded file fails intake, the processed list is
empty and the run still completes successfully with a downloadable
output: a one-page bundle holding only the entry-less TOC page with
`TotalPages = 1` when TOC generation is enabled, and a zero-page bundle
when it is disabled. -/
theorem C10_all_intake_failed (files : List UploadedFile) (use_toc use_numbers : Bool)
    (hfail : ∀ f ∈ files, (intakeFile f).toOption = none) :
    (processedFiles files).1 = [] ∧
    mainResult none use_toc use_numbers (processedFiles files).1
      = (some (finalBundle use_toc use_numbers []), [.success]) ∧
    (finalBundle use_toc use_numbers []).length = (if use_toc then 1 else 0) ∧
    finalBundle true use_numbers [] = [⟨letterWidth, letterHeight, .toc [], []⟩] ∧
    total_pages true [] = 1 := by
  have h1 : (processedFiles files).1 = [] := by
    rw [processedFiles_fst]
    exact List.filterMap_eq_nil_iff.mpr hfail
  refine ⟨h1, ?_, ?_, rfl, rfl⟩
  · rw [h1]
    unfold mainResult
    rw [runBundle_none]
  · cases use_toc <;> rfl

/-- Witness for C10 on an upload list whose two files both fail intake,
with TOC generation enabled. -/
theorem C10_all_intake_failed_witness :
    (∀ f ∈ failFiles, (intakeFile f).toOption = none) ∧
    ((processedFiles failFiles).1 = [] ∧
      mainResult none true true (processedFiles failFiles).1
        = (some (finalBundle true true []), [.success]) ∧
      (finalBundle true true []).length = (if true then 1 else 0) ∧
      finalBundle true true [] = [⟨letterWidth, letterHeight, .toc [], []⟩] ∧
      total_pages true [] = 1) :=
  ⟨by decide, C10_all_intake_failed failFiles true true (by decide)⟩

/-- C8: stamping is a frame-preserving footer overlay: it keeps page
count, page order, every page dimension and the original page content,
and only appends the footer overlay on top of the page. -/
theorem C8_stamp_frame_preserving (pages : List Page) (s t k : Nat)
    (hk : k < pages.length) :
    (stamp_page_numbers pages s t).length = pages.length ∧
    ((stamp_page_numbers pages s t).getD k default).width = (pages.getD k default).width ∧
    ((stamp_page_numbers pages s t).getD k default).height = (pages.getD k default).height ∧
    ((stamp_page_numbers pages s t).getD k default).content = (pages.getD k default).content ∧
    ((stamp_page_numbers pages s t).getD k default).overlays
      = (pages.getD k default).overlays ++ [footerOverlay s t k] := by
  have h := stamp_getD pages s t k hk
  exact ⟨stamp_length pages s t, by rw [h]; rfl, by rw [h]; rfl, by rw [h]; rfl,
    by rw [h]; rfl⟩

/-- Witness for C8 on a concrete one-page document. -/
theorem C8_stamp_frame_preserving_witness :
    0 < [demoPage].length ∧
    ((stamp_page_numbers [demoPage] 2 5).length = [demoPage].length ∧
      ((stamp_page_numbers [demoPage] 2 5).getD 0 default).width
        = ([demoPage].getD 0 default).width ∧
      ((stamp_page_numbers [demoPage] 2 5).getD 0 default).height
        = ([demoPage].getD 0 default).height ∧
      ((stamp_page_numbers [demoPage] 2 5).getD 0 default).content
        = ([demoPage].getD 0 default).content ∧
      ((stamp_page_numbers [demoPage] 2 5).getD 0 default).overlays
        = ([demoPage].getD 0 default).overlays ++ [footerOverlay 2 5 0]) :=
  ⟨by decide, C8_stamp_frame_preserving [demoPage] 2 5 0 (by decide)⟩

/-- C3 counterexample: the claim places each footer at the horizontal
center of its own page, but the watermark canvas is always letter-sized,
so the footer sits at `x = 306` even on a page whose own horizontal
center differs: an 842-point-wide page gets its footer at 306, not
at 421. -/
theorem C3_counterexample :
    ¬ ∀ (pages : List Page) (s t k : Nat), k < pages.length →
      ((stamp_page_numbers pages s t).getD k default).overlays
        = (pages.getD k default).overlays
          ++ [⟨footerText s t k, (pages.getD k default).width / 2, 20⟩] := by
  intro h
  have hc := h [⟨842, 595, .pdf "x", []⟩] 1 1 0 (by decide)
  exact absurd hc (by decide)

/-- C3 amended: stamping a document whose start page is `startPage`
produces a page sequence of equal length in which page `k` carries a
footer reading `Page (startPage + k) of TotalPages`, composited at the
horizontal center of the letter-sized overlay (`x = 306`) near the
bottom margin (`y = 20`); this coincides with the horizontal center of
the stamped page only when that page is letter-width. -/
theorem C3_stamp_footer_text (pages : List Page) (s t k : Nat)
    (hk : k < pages.length) :
    (stamp_page_numbers pages s t).length = pages.length ∧
    (stamp_page_numbers pages s t).getD k default
      = { pages.getD k default with
          overlays := (pages.getD k default).overlays
            ++ [⟨footerText s t k, letterWidth / 2, 20⟩] } := by
  refine ⟨stamp_length pages s t, ?_⟩
  rw [stamp_getD pages s t k hk]
  rfl

/-- Witness for the amended C3 on a concrete one-page document. -/
theorem C3_stamp_footer_text_witness :
    0 < [demoPage].length ∧
    ((stamp_page_numbers [demoPage] 3 7).length = [demoPage].length ∧
      (stamp_page_numbers [demoPage] 3 7).getD 0 default
        = { [demoPage].getD 0 default with
            overlays := ([demoPage].getD 0 default).overlays
              ++ [⟨footerText 3 7 0, letterWidth / 2, 20⟩] }) :=
  ⟨by decide, C3_stamp_footer_text [demoPage] 3 7 0 (by decide)⟩

set_option maxRecDepth 10000 in
/-- C4 counterexample: when the TOC overflows onto a second page, the
bundle does not begin with all generated TOC pages — line 212 adds only
`pages[0]` of the TOC packet.  With 27 one-page documents the generator
produces two TOC pages, but the page at index 1 of the bundle is the
first document page, not the second TOC page. -/
theorem C4_counterexample :
    ¬ ∀ (use_numbers : Bool) (procs : List ProcessedFile),
      (finalBundle true use_numbers procs).take
          ((create_toc (docNames procs) (docCounts procs)).length)
        = create_toc (docNames procs) (docCounts procs) := by
  intro h
  have hc := h false ceProcs
  have h2 := congrArg (fun l => (l.getD 1 default).content) hc
  simp only at h2
  exact absurd h2 (by decide)

/-- C4 amended: when TOC generation is enabled, exactly the first page
generated by the TOC generator appears in the bundle, at the start and
before any document pages; TOC pages beyond the first, produced when the
entries overflow past the minimum bottom margin, are not included in the
output bundle. -/
theorem C4_first_toc_page_only (use_numbers : Bool) (procs : List ProcessedFile)
    (hdocs : ∀ pf ∈ procs, ∀ p ∈ pf.pages, isTocPage p = false) :
    1 ≤ (create_toc (docNames procs) (docCounts procs)).length ∧
    (finalBundle true use_numbers procs).take 1
      = (create_toc (docNames procs) (docCounts procs)).take 1 ∧
    (finalBundle true use_numbers procs).countP isTocPage = 1 ∧
    ∀ p ∈ (finalBundle true use_numbers procs).drop 1, isTocPage p = false := by
  obtain ⟨q, rest, hq⟩ : ∃ q rest,
      create_toc (docNames procs) (docCounts procs) = q :: rest := by
    cases hc : create_toc (docNames procs) (docCounts procs) with
    | nil => exact absurd hc (create_toc_ne_nil _ _)
    | cons q rest => exact ⟨q, rest, rfl⟩
  have hq2 : create_toc (procs.map ProcessedFile.name) (procs.map ProcessedFile.count)
      = q :: rest := hq
  have hbundle : finalBundle true use_numbers procs
      = q :: mergeLoop use_numbers
          (total_pages true (procs.map ProcessedFile.count)) procs 2 := by
    show (if true = true then
        (create_toc (procs.map ProcessedFile.name) (procs.map ProcessedFile.count)).take 1
      else [])
        ++ mergeLoop use_numbers (total_pages true (procs.map ProcessedFile.count)) procs 2
      = _
    rw [if_pos rfl, hq2]
    rfl
  have hqtoc : isTocPage q = true :=
    create_toc_mem_isTocPage _ _ q (hq ▸ List.mem_cons_self q rest)
  have hmerge : ∀ p ∈ mergeLoop use_numbers
      (total_pages true (procs.map ProcessedFile.count)) procs 2,
      isTocPage p = false := by
    intro p hp
    obtain ⟨pf, hpf, r, hr, hc⟩ := mergeLoop_content_mem _ _ procs 2 p hp
    rw [isTocPage_congr p r hc]
    exact hdocs pf hpf r hr
  refine ⟨by rw [hq]; simp, ?_, ?_, ?_⟩
  · rw [hbundle, hq]
    rfl
  · rw [hbundle, List.countP_cons]
    have hz : (mergeLoop use_numbers
        (total_pages true (procs.map ProcessedFile.count)) procs 2).countP isTocPage = 0 := by
      rw [List.countP_eq_zero]
      intro p hp
      simp [hmerge p hp]
    rw [hz, hqtoc]
    rfl
  · rw [hbundle]
    intro p hp
    exact hmerge p (by simpa using hp)

/-- Witness for the amended C4 at the worked scenario with two documents
and numbering on. -/
theorem C4_first_toc_page_only_witness :
    (∀ pf ∈ demoProcs, ∀ p ∈ pf.pages, isTocPage p = false) ∧
    (1 ≤ (create_toc (docNames demoProcs) (docCounts demoProcs)).length ∧
      (finalBundle true true demoProcs).take 1
        = (create_toc (docNames demoProcs) (docCounts demoProcs)).take 1 ∧
      (finalBundle true true demoProcs).countP isTocPage = 1 ∧
      ∀ p ∈ (finalBundle true true demoProcs).drop 1, isTocPage p = false) :=
  ⟨by decide, C4_first_toc_page_only true demoProcs (by decide)⟩

/-- C9 counterexample: the spec calls any palette-indexed or
alpha-channel mode not directly embeddable, but the normaliser converts
only modes `RGBA` and `P`; the grayscale-plus-alpha mode `LA` is left
unconverted. -/
theorem C9_counterexample :
    ¬ ∀ mode : String, specNeedsFlatten mode = true → convertMode mode = "RGB" := by
  intro h
  have hla := h "LA" (by decide)
  exact absurd hla (by decide)

/-- C9 amended: the normaliser converts exactly the modes `RGBA` and `P`
to flattened RGB before embedding; every other mode, including the
alpha-carrying modes `LA` and `PA`, is passed through unchanged. -/
theorem C9_convert_mode_exact (mode : String) (h1 : mode ≠ "RGBA") (h2 : mode ≠ "P") :
    convertMode "RGBA" = "RGB" ∧ convertMode "P" = "RGB" ∧ convertMode mode = mode := by
  refine ⟨by decide, by decide, ?_⟩
  unfold convertMode
  rw [if_neg h1, if_neg h2]

/-- Witness for the amended C9 at the concrete mode `LA`. -/
theorem C9_convert_mode_exact_witness :
    ("LA" : String) ≠ "RGBA" ∧ ("LA" : String) ≠ "P" ∧
    (convertMode "RGBA" = "RGB" ∧ convertMode "P" = "RGB" ∧ convertMode "LA" = "LA") :=
  ⟨by decide, by decide, C9_convert_mode_exact "LA" (by decide) (by decide)⟩

end PdfBinder
